import Mathlib

/-!
# StyleMap: verification of the CSS compiler and registration ledger

Shallow embedding of the StyleMap library (files `src/css.ts`, `src/styling.ts`,
`src/utils.ts`, `src/types.ts`) in Lean 4, together with theorems checking the
natural-language specification against the code.

Conventions used throughout:
* JS numbers that appear in style values are modelled as `Nat` (all values the
  library is exercised with here are non-negative integers); their string
  interpolation is decimal rendering.
* JS `undefined` is a first-class scalar (`Value.undef`); functions whose JS
  counterpart returns `string | undefined` return `Option String`.
* JS string interpolation of a possibly-undefined value renders `none` as
  `"undefined"` (`jsInterp`); `Array.prototype.join` renders `undefined`
  elements as `""` (`jsJoinElem`).
* Thrown JS errors are modelled with `Except` carrying a structured error value
  (the JS message text is reproduced in comments next to each error).
-/

/-! ## Decimal rendering of numbers (JS template interpolation of a number) -/

/-- The ten decimal digit characters; `decDigit d` is the character for `d % 10`. -/
def decDigit (d : Nat) : Char :=
  match d with
  | 0 => '0' | 1 => '1' | 2 => '2' | 3 => '3' | 4 => '4'
  | 5 => '5' | 6 => '6' | 7 => '7' | 8 => '8' | _ => '9'

/-- Fuel-indexed decimal digit expansion (most significant digit first). -/
def decCharsFuel : Nat → Nat → List Char
  | 0, _ => []
  | fuel + 1, n =>
    if n < 10 then [decDigit n]
    else decCharsFuel fuel (n / 10) ++ [decDigit (n % 10)]

/-- Decimal digit string of a natural number, as JS renders a number `n` with
`${n}`. `n + 1` units of fuel always suffice since `n < 10 ^ (n + 1)`. -/
def decChars (n : Nat) : List Char := decCharsFuel (n + 1) n

/-- Decimal rendering of a natural number as a `String`. -/
def decStr (n : Nat) : String := ⟨decChars n⟩

/-- Numeric value of a digit character. -/
def charVal (c : Char) : Nat := c.toNat - 48

/-- Decode a most-significant-first digit string back to the number. -/
def decodeChars (cs : List Char) : Nat := cs.foldl (fun acc c => acc * 10 + charVal c) 0

theorem charVal_decDigit {d : Nat} (h : d < 10) : charVal (decDigit d) = d := by
  interval_cases d <;> rfl

theorem decDigit_isDigit {d : Nat} (h : d < 10) : (decDigit d).isDigit = true := by
  interval_cases d <;> rfl

theorem decodeChars_append (xs : List Char) (c : Char) :
    decodeChars (xs ++ [c]) = decodeChars xs * 10 + charVal c := by
  simp [decodeChars, List.foldl_append]

theorem decCharsFuel_spec : ∀ fuel n, n < 10 ^ (fuel + 1) →
    decodeChars (decCharsFuel (fuel + 1) n) = n ∧
    (∀ c ∈ decCharsFuel (fuel + 1) n, c.isDigit = true) ∧
    decCharsFuel (fuel + 1) n ≠ [] := by
  intro fuel
  induction fuel with
  | zero =>
    intro n h
    have hn : n < 10 := by simpa using h
    refine ⟨?_, ?_, ?_⟩ <;> simp [decCharsFuel, hn, decodeChars, charVal_decDigit hn,
      decDigit_isDigit hn]
  | succ fuel ih =>
    intro n h
    by_cases hn : n < 10
    · refine ⟨?_, ?_, ?_⟩ <;> simp [decCharsFuel, hn, decodeChars, charVal_decDigit hn,
        decDigit_isDigit hn]
    · have hdiv : n / 10 < 10 ^ (fuel + 1) := by
        rw [Nat.div_lt_iff_lt_mul (by norm_num)]
        calc n < 10 ^ (fuel + 1 + 1) := h
        _ = 10 ^ (fuel + 1) * 10 := by ring
      obtain ⟨h1, h2, h3⟩ := ih (n / 10) hdiv
      have hm : n % 10 < 10 := Nat.mod_lt _ (by norm_num)
      refine ⟨?_, ?_, ?_⟩
      · rw [show decCharsFuel (fuel + 1 + 1) n
            = decCharsFuel (fuel + 1) (n / 10) ++ [decDigit (n % 10)] by
          simp [decCharsFuel, if_neg hn]]
        rw [decodeChars_append, h1, charVal_decDigit hm]
        omega
      · rw [show decCharsFuel (fuel + 1 + 1) n
            = decCharsFuel (fuel + 1) (n / 10) ++ [decDigit (n % 10)] by
          simp [decCharsFuel, if_neg hn]]
        intro c hc
        rcases List.mem_append.1 hc with hc | hc
        · exact h2 c hc
        · simp at hc; subst hc; exact decDigit_isDigit hm
      · rw [show decCharsFuel (fuel + 1 + 1) n
            = decCharsFuel (fuel + 1) (n / 10) ++ [decDigit (n % 10)] by
          simp [decCharsFuel, if_neg hn]]
        simp

theorem n_lt_ten_pow (n : Nat) : n < 10 ^ (n + 1) := by
  calc n < n + 1 := Nat.lt_succ_self n
  _ ≤ 10 ^ (n + 1) := Nat.le_of_lt (Nat.lt_pow_self (by norm_num) _)

theorem decodeChars_decChars (n : Nat) : decodeChars (decChars n) = n :=
  (decCharsFuel_spec _ n (n_lt_ten_pow n)).1

theorem decChars_isDigit (n : Nat) : ∀ c ∈ decChars n, c.isDigit = true :=
  (decCharsFuel_spec _ n (n_lt_ten_pow n)).2.1

theorem decChars_ne_nil (n : Nat) : decChars n ≠ [] :=
  (decCharsFuel_spec _ n (n_lt_ten_pow n)).2.2

theorem decChars_injective {i j : Nat} (h : decChars i = decChars j) : i = j := by
  have := decodeChars_decChars i
  rw [h, decodeChars_decChars] at this
  exact this.symm

/-- `takeWhile` of a list that is all-`p` followed by a non-`p` element returns
exactly the prefix. -/
theorem takeWhile_all_append {p : Char → Bool} :
    ∀ (xs : List Char) (y : Char) (ys : List Char), (∀ x ∈ xs, p x = true) → p y = false →
    List.takeWhile p (xs ++ y :: ys) = xs := by
  intro xs
  induction xs with
  | nil => intro y ys _ hy; simp [List.takeWhile, hy]
  | cons x xs ih =>
    intro y ys hall hy
    have hx : p x = true := hall x (List.mem_cons_self _ _)
    simp only [List.cons_append, List.takeWhile_cons, hx, if_true, cond_true]
    rw [ih y ys (fun a ha => hall a (List.mem_cons_of_mem _ ha)) hy]

/-- Distinct indices give distinct `<base>-<index>` names, whatever the bases:
the digit run after the final dash recovers the index. -/
theorem suffixedName_ne {b1 b2 : String} {i j : Nat} (hij : i ≠ j) :
    b1 ++ "-" ++ decStr i ≠ b2 ++ "-" ++ decStr j := by
  intro h
  have hdata : b1.data ++ '-' :: decChars i = b2.data ++ '-' :: decChars j := by
    have := congrArg String.data h
    simpa [decStr, String.data_append] using this
  have hrev : (decChars i).reverse ++ '-' :: b1.data.reverse
      = (decChars j).reverse ++ '-' :: b2.data.reverse := by
    have := congrArg List.reverse hdata
    simpa [List.reverse_append] using this
  have hdash : ('-' : Char).isDigit = false := by decide
  have h1 : List.takeWhile Char.isDigit ((decChars i).reverse ++ '-' :: b1.data.reverse)
      = (decChars i).reverse := by
    refine takeWhile_all_append _ _ _ ?_ hdash
    intro x hx
    exact decChars_isDigit i x (List.mem_reverse.1 hx)
  have h2 : List.takeWhile Char.isDigit ((decChars j).reverse ++ '-' :: b2.data.reverse)
      = (decChars j).reverse := by
    refine takeWhile_all_append _ _ _ ?_ hdash
    intro x hx
    exact decChars_isDigit j x (List.mem_reverse.1 hx)
  have : (decChars i).reverse = (decChars j).reverse := by rw [← h1, hrev, h2]
  exact hij (decChars_injective (List.reverse_injective this))

/-! ## JS string helpers -/

/-- JS template interpolation of a `string | undefined`: `undefined` renders as
the text `undefined`. -/
def jsInterp (o : Option String) : String := o.getD "undefined"

/-- `Array.prototype.join` renders an `undefined` element as the empty string. -/
def jsJoinElem (o : Option String) : String := o.getD ""

/-! ## Property values

`Value` is the space of JS values that can occupy a property-value slot:
`undefined`, strings, numbers, arrays, and plain objects mapping CSS function
names to argument values (`csstype` function maps). Objects are ordered entry
lists, as seen through `Object.entries`.
-/

inductive Value where
  | undef : Value
  | str (s : String) : Value
  | num (n : Nat) : Value
  | arr (vs : List Value) : Value
  | fns (entries : List (String × Value)) : Value

/-- Models `Number(s)` not being `NaN` for the offset strings this code path
receives: recognizes (possibly empty) decimal digit strings, matching JS on
every offset used (`from`, `to`, `"50%"`, `"70"`, `""`). JS `Number` also
accepts signs, decimals and exponents, which never occur as keyframe offsets
here. -/
def jsIsNumeric (s : String) : Bool := s.data.all (·.isDigit)

/-- `defaultUnit` from `utils.ts`: `undefined` passes through, a number gets the
unit appended, a string gets the unit appended only when `coerceToNumber` is set
and the string is numeric, and otherwise passes through unchanged. Arrays and
objects never reach the scalar default functions (`cssPropertyValue` dispatches
them first, and keyframe offsets are strings); those cases return the value
uninterpreted like the JS `value as string` fallthrough. -/
def defaultUnit (unit : String) (coerceToNumber : Bool := false) : Value → Option String
  | .undef => none
  | .num n => some (decStr n ++ unit)
  | .str s => if coerceToNumber && jsIsNumeric s then some (s ++ unit) else some s
  | .arr _ => some ""
  | .fns _ => some ""

/-- `defaultValue` from `utils.ts`: `undefined` becomes the given default, any
defined value passes through (numbers via string interpolation). -/
def defaultValue (d : String) : Value → Option String
  | .undef => some d
  | .num n => some (decStr n)
  | .str s => some s
  | .arr _ => some ""
  | .fns _ => some ""

/-- `defaultUnitAndValue` from `utils.ts`: `defaultUnit(unit)(v) || defaultValue(value)(v)`;
JS `||` falls through on `undefined` and on the empty string. -/
def defaultUnitAndValue (unit : String) (d : String) (v : Value) : Option String :=
  match defaultUnit unit false v with
  | some s => if s = "" then defaultValue d v else some s
  | none => defaultValue d v

/-- `propertyDefaults` table from `css.ts` (per-property scalar formatting). -/
def propertyDefaults (p : String) : Option (Value → Option String) :=
  match p with
  | "animationDuration" => some (defaultUnitAndValue "ms" "0ms")
  | "animationTimingFunction" => some (defaultValue "ease")
  | "animationDelay" => some (defaultUnitAndValue "ms" "0ms")
  | "animationIterationCount" => some (defaultUnitAndValue "" "1")
  | "animationDirection" => some (defaultValue "normal")
  | "animationFillMode" => some (defaultValue "none")
  | "animationPlayState" => some (defaultValue "running")
  | "columnCount" => some (defaultUnit "")
  | "flex" => some (defaultUnit "")
  | "flexGrow" => some (defaultUnit "")
  | "flexShrink" => some (defaultUnit "")
  | "fontWeight" => some (defaultUnit "")
  | "gridArea" => some (defaultUnit "")
  | "gridColumn" => some (defaultUnit "")
  | "gridRow" => some (defaultUnit "")
  | "lineHeight" => some (defaultUnit "")
  | "opacity" => some (defaultUnit "")
  | "transitionDuration" => some (defaultUnit "ms")
  | "transitionDelay" => some (defaultUnit "ms")
  | "zIndex" => some (defaultUnit "")
  | _ => none

/-- `functionDefaults` table from `css.ts` (positional per-parameter formatting
inside CSS functions). -/
def functionDefaults (fn : String) : Option (List (Value → Option String)) :=
  match fn with
  | "matrix" => some [defaultUnit ""]
  | "matrix3d" => some [defaultUnit ""]
  | "repeat" => some [defaultUnit "", defaultUnit "px"]
  | "rotate" => some [defaultUnit "deg"]
  | "rotateX" => some [defaultUnit "deg"]
  | "rotateY" => some [defaultUnit "deg"]
  | "rotateZ" => some [defaultUnit "deg"]
  | "rotate3d" => some [defaultUnit "", defaultUnit "", defaultUnit "", defaultUnit "deg"]
  | "scale" => some [defaultUnit ""]
  | "scaleX" => some [defaultUnit ""]
  | "scaleY" => some [defaultUnit ""]
  | "scaleZ" => some [defaultUnit ""]
  | "scale3d" => some [defaultUnit ""]
  | "skew" => some [defaultUnit "deg"]
  | "skewX" => some [defaultUnit "deg"]
  | "skewY" => some [defaultUnit "deg"]
  | _ => none

/-- `propertySeparators` table from `css.ts`. Default is comma; nested arrays
use the next separator in the list. -/
def propertySeparators (p : String) : Option (List String) :=
  match p with
  | "aspectRatio" => some [" "]
  | "animationRange" => some [" "]
  | "animationRangeEnd" => some [" "]
  | "animationRangeStart" => some [" "]
  | "borderColor" => some [" "]
  | "borderRadius" => some [" "]
  | "borderStyle" => some [" "]
  | "borderWidth" => some [" "]
  | "gridColumn" => some [" / "]
  | "gridRow" => some [" / "]
  | "gridTemplate" => some [" ", " / "]
  | "gridTemplateAreas" => some [" "]
  | "gridTemplateColumns" => some [" "]
  | "gridTemplateRows" => some [" "]
  | "margin" => some [" "]
  | "padding" => some [" "]
  | "scale" => some [" "]
  | "translate" => some [" "]
  | "transform" => some [" "]
  | _ => none

/-- `cssFunctionParameterSeparators` table from `css.ts`. Default is comma. -/
def cssFunctionParameterSeparators (fn : String) : Option String :=
  match fn with
  | "inset" => some " "
  | "circle" => some " "
  | "ellipse" => some " "
  | _ => none

/-- Is this value a JS array? (the `Array.isArray` test in `arrayValues`). -/
def Value.isArr : Value → Bool
  | .arr _ => true
  | _ => false

/-- `functionKebabCase` from `css.ts`: kebab-case capitals except a trailing
one (regex `[A-Z](?!$)`). -/
def functionKebabCase (name : String) : String :=
  ⟨go name.data⟩
where
  go : List Char → List Char
    | [] => []
    | [c] => [c]
    | c :: rest => if c.isUpper then '-' :: c.toLower :: go rest else c :: go rest

/-- `kebabCase` from `css.ts`: custom property names (leading `--`) pass
through; otherwise a leading `ms` before a capital becomes `-ms`, then every
capital becomes `-` plus its lowercase. -/
def kebabCase (name : String) : String :=
  if name.startsWith "--" then name
  else
    let msPrefixed : Bool :=
      match name.data with
      | 'm' :: 's' :: c :: _ => c.isUpper
      | _ => false
    (if msPrefixed then "-" else "")
      ++ ⟨name.data.flatMap (fun c => if c.isUpper then ['-', c.toLower] else [c])⟩

/-! ## The value formatter (`css.ts`)

`cssPropertyValue` and its helpers. The JS functions recurse through arrays and
function maps; the list traversals done with `Array.prototype.map` in JS are
expressed as mutually recursive list walks so the whole nest is well-founded,
with each walk producing the same list `map` would. In the
`functionDefaults` lookup the index is always in range (the tables are
non-empty and the index is clamped), so the `getD` fallback function is never
used. -/

mutual

def cssPropertyValue (p : String) : Value → Option String
  | .arr vs => some (arrayValues p vs)
  | .fns entries => some (cssFunctions p entries)
  | .undef => ((propertyDefaults p).getD (defaultUnit "px")) .undef
  | .str s => ((propertyDefaults p).getD (defaultUnit "px")) (.str s)
  | .num n => ((propertyDefaults p).getD (defaultUnit "px")) (.num n)
termination_by v => (sizeOf v, 0)

def arrayValues (p : String) (vs : List Value) : String :=
  let seps := (propertySeparators p).getD [", "]
  String.intercalate
    (seps.getD (min (if vs.any Value.isArr then 1 else 0) (seps.length - 1)) ", ")
    (arrayParts p seps vs)
termination_by (sizeOf vs, 1)

def arrayParts (p : String) (seps : List String) : List Value → List String
  | [] => []
  | .arr ws :: rest =>
    String.intercalate (seps.headD ", ") (innerParts p ws) :: arrayParts p seps rest
  | .undef :: rest => jsJoinElem (cssPropertyValue p .undef) :: arrayParts p seps rest
  | .str s :: rest => jsJoinElem (cssPropertyValue p (.str s)) :: arrayParts p seps rest
  | .num n :: rest => jsJoinElem (cssPropertyValue p (.num n)) :: arrayParts p seps rest
  | .fns e :: rest => jsJoinElem (cssPropertyValue p (.fns e)) :: arrayParts p seps rest
termination_by vs => (sizeOf vs, 0)

def innerParts (p : String) : List Value → List String
  | [] => []
  | v :: rest => jsJoinElem (cssPropertyValue p v) :: innerParts p rest
termination_by vs => (sizeOf vs, 0)

def cssFunctions (p : String) (entries : List (String × Value)) : String :=
  String.intercalate " " (fnParts p entries)
termination_by (sizeOf entries, 1)

def fnParts (p : String) : List (String × Value) → List String
  | [] => []
  | (fn, v) :: rest =>
    (functionKebabCase fn ++ "(" ++ jsInterp (cssFunctionValue p fn v) ++ ")") :: fnParts p rest
termination_by entries => (sizeOf entries, 0)

def cssFunctionValue (p fn : String) : Value → Option String
  | .arr vs =>
    some (String.intercalate ((cssFunctionParameterSeparators fn).getD ", ")
      (paramParts p fn vs 0))
  | .undef => cssFunctionParameterValue p fn .undef 0
  | .str s => cssFunctionParameterValue p fn (.str s) 0
  | .num n => cssFunctionParameterValue p fn (.num n) 0
  | .fns e => cssFunctionParameterValue p fn (.fns e) 0
termination_by v => (sizeOf v, 3)

def paramParts (p fn : String) : List Value → Nat → List String
  | [], _ => []
  | v :: rest, i => jsJoinElem (cssFunctionParameterValue p fn v i) :: paramParts p fn rest (i + 1)
termination_by vs _ => (sizeOf vs, 0)

def cssFunctionParameterValue (p fn : String) : Value → Nat → Option String
  | .arr vs, i => some (String.intercalate " " (spreadParts p fn vs i))
  | .fns entries, _ => some (cssFunctions p entries)
  | .undef, i => scalarParam p fn .undef i
  | .str s, i => scalarParam p fn (.str s) i
  | .num n, i => scalarParam p fn (.num n) i
termination_by v _ => (sizeOf v, 2)

def scalarParam (p fn : String) (v : Value) (i : Nat) : Option String :=
  match functionDefaults fn with
  | some dfns =>
    match (dfns.getD (min i (dfns.length - 1)) (defaultUnit "px")) v with
    | some s => some s
    | none => cssPropertyValue p v
  | none => cssPropertyValue p v
termination_by (sizeOf v, 1)

def spreadParts (p fn : String) : List Value → Nat → List String
  | [], _ => []
  | v :: rest, i => jsJoinElem (cssFunctionParameterValue p fn v i) :: spreadParts p fn rest i
termination_by vs _ => (sizeOf vs, 0)

end

/-! ## Declaration serialization (`cssProperties`, `baseRule` from `css.ts`) -/

/-- `cssProperties`: kebab-cased `prop: value;` pairs joined with single spaces. -/
def cssProperties (styles : List (String × Value)) : String :=
  String.intercalate " "
    (styles.map (fun e => kebabCase e.1 ++ ": " ++ jsInterp (cssPropertyValue e.1 e.2) ++ ";"))

/-- `baseRule`: one `selector { decls }` rule, or nothing when there are no
declarations. -/
def baseRule (selector : String) (styles : List (String × Value)) : List String :=
  if styles.isEmpty then [] else [selector ++ " \x7b " ++ cssProperties styles ++ " \x7d"]

/-! ## Keyframes and animation definitions (`css.ts`, `types.ts`) -/

/-- A keyframe set: offset keys mapped to declaration lists, plus the optional
`StyleRendered` symbol marker (`none` = marker absent = unregistered;
`some b` = marker present, so the set counts as registered). `Object.entries`
never sees the symbol marker, matching `frames` being separate. -/
structure KeyFrames where
  frames : List (String × List (String × Value))
  rendered : Option Bool := none

/-- `keyframesCss`: each offset is normalized with `defaultUnit('%', true)`,
its declarations are wrapped through `baseRule`, and the (0- or 1-element)
rule array is interpolated into the template, which JS renders as a
comma-join. -/
def keyframesCss (name : String) (keyframes : KeyFrames) : String :=
  "@keyframes " ++ name ++ " \x7b\n"
    ++ String.intercalate "\n" (keyframes.frames.map (fun fr =>
        "  " ++ String.intercalate ","
          (baseRule (jsInterp (defaultUnit "%" true (.str fr.1))) fr.2)))
    ++ "\n\x7d"

/-- `AnimationDefinition` from `types.ts`: the eight animation sub-properties
plus an optional embedded keyframe set. Absent fields are `none`
(JS `undefined`). The name is kept as a string, matching how the library
produces and consumes it. -/
structure AnimationDefinition where
  animationName : Option String := none
  keyframes : Option KeyFrames := none
  animationDuration : Option Value := none
  animationTimingFunction : Option Value := none
  animationDelay : Option Value := none
  animationIterationCount : Option Value := none
  animationDirection : Option Value := none
  animationFillMode : Option Value := none
  animationPlayState : Option Value := none

/-- `animationFromDefinition`: the eight sub-properties formatted in fixed
order and space-joined (`Array.prototype.join` renders `undefined` as ``). -/
def animationFromDefinition (d : AnimationDefinition) : String :=
  String.intercalate " "
    ([("animationName", (d.animationName.map Value.str).getD .undef),
      ("animationDuration", d.animationDuration.getD .undef),
      ("animationTimingFunction", d.animationTimingFunction.getD .undef),
      ("animationDelay", d.animationDelay.getD .undef),
      ("animationIterationCount", d.animationIterationCount.getD .undef),
      ("animationDirection", d.animationDirection.getD .undef),
      ("animationFillMode", d.animationFillMode.getD .undef),
      ("animationPlayState", d.animationPlayState.getD .undef)].map
      (fun e => jsJoinElem (cssPropertyValue e.1 e.2)))

/-- Characters kept verbatim by the `[^\w\d-_]+` replacement: ASCII
alphanumerics, dash and underscore. -/
def isWordChar (c : Char) : Bool := c.isAlphanum || c == '-' || c == '_'

/-- The global replacement `replace(/[^\w\d-_]+/g, '_')`: each maximal run of
non-word characters becomes one underscore. The `inRun` flag tracks whether
the previous character was part of a non-word run already replaced. -/
def collapseNonWordAux (inRun : Bool) : List Char → List Char
  | [] => []
  | c :: rest =>
    if isWordChar c then c :: collapseNonWordAux false rest
    else if inRun then collapseNonWordAux true rest
    else '_' :: collapseNonWordAux true rest

/-- `replace(/[^\w\d-_]+/g, '_')` on a whole string. -/
def collapseNonWord (cs : List Char) : List Char := collapseNonWordAux false cs

/-- The anchored replacement `replace(/^_/, '')`: at most one leading
underscore is removed. -/
def stripLeadingUnderscore : List Char → List Char
  | '_' :: rest => rest
  | l => l

/-- `inlineAnimationName` from `css.ts`: `String(name || selector + '-animation')`
with non-word runs collapsed to `_`, one leading `_` stripped, and the
zero-based occurrence index appended. A JS-falsy name (absent or empty) falls
back to the selector-derived name. -/
def inlineAnimationName (name : Option String) (selector : String) (index : Nat) : String :=
  let base : String :=
    match name with
    | some s => if s = "" then selector ++ "-animation" else s
    | none => selector ++ "-animation"
  (⟨stripLeadingUnderscore (collapseNonWord base.data)⟩ : String) ++ "-" ++ decStr index

/-- A single element of an `animation` property: an opaque animation string or
an animation definition object. -/
inductive AnimItem where
  | str (s : String)
  | defn (d : AnimationDefinition)

/-- The value of the `animation` key: a single item or a JS array of items
(the `Array.isArray` test in `animationValues`). -/
inductive AnimEntry where
  | single (a : AnimItem)
  | multi (items : List AnimItem)

/-- Result of animation resolution: the CSS shorthand text plus the keyframe
sets to hoist. -/
structure AnimResult where
  value : String
  keyframes : List (String × KeyFrames)

/-- `singleAnimation` from `css.ts`: plain strings pass through; a definition
with no keyframe set, or one whose set carries the registered marker
(`StyleRendered in keyframes`), is formatted as-is with no hoist; an
unregistered inline set gets a synthesized name patched into the definition
and is queued for hoisting. -/
def singleAnimation (animation : AnimItem) (selector : String) (index : Nat := 0) : AnimResult :=
  match animation with
  | .defn d =>
    match d.keyframes with
    | none => { value := animationFromDefinition d, keyframes := [] }
    | some kf =>
      if kf.rendered.isSome then
        { value := animationFromDefinition d, keyframes := [] }
      else
        let animationName := inlineAnimationName d.animationName selector index
        { value := animationFromDefinition { d with animationName := some animationName },
          keyframes := [(animationName, kf)] }
  | .str s => { value := s, keyframes := [] }

/-- `animationValues` from `css.ts`: arrays resolve each element with its
per-element index and reduce by comma-joining values and concatenating hoist
lists. (JS `reduce` throws on an empty array; that case is unreachable and
returns a dummy here.) -/
def animationValues (value : AnimEntry) (selector : String) : AnimResult :=
  match value with
  | .multi items =>
    match items.enum.map (fun e => singleAnimation e.2 selector e.1) with
    | [] => { value := "", keyframes := [] }
    | r :: rs =>
      rs.foldl (fun a b =>
        { value := a.value ++ ", " ++ b.value, keyframes := a.keyframes ++ b.keyframes }) r
  | .single a => singleAnimation a selector

/-! ## Style trees (`types.ts`)

A style node maps keys to values; the compiler dispatches on the key: `$`
carries a nested rule set, keys beginning with `:` carry nested style nodes,
`animation` carries animation data, and every other key is a declaration
(`undefined`-valued declarations are dropped before dispatch; only
declarations can be `undefined`, the other shapes are objects). A rule set is
either a selector-keyed object or an array of (selector-or-selector-list,
node) pairs. -/

inductive Sel where
  | one (s : String)
  | many (ss : List String)

mutual

inductive StylesObj where
  | mk (entries : List StyleEntry)

inductive StyleEntry where
  | prop (name : String) (value : Value)
  | pseudo (key : String) (styles : StylesObj)
  | nest (rules : RulesT)
  | anim (value : AnimEntry)

inductive RulesT where
  | obj (entries : List (String × StylesObj))
  | arr (entries : List (Sel × StylesObj))

end

def StylesObj.entries : StylesObj → List StyleEntry
  | .mk es => es

/-- `ruleEntries` from `css.ts`: an array rule set is flattened, expanding a
selector list into one `(selector, node)` pair per listed selector; an object
rule set is its entry list. -/
def ruleEntries : RulesT → List (String × StylesObj)
  | .obj l => l
  | .arr l =>
    l.flatMap (fun e =>
      match e.1 with
      | .one s => [(s, e.2)]
      | .many ss => ss.map (fun s => (s, e.2)))

/-- The three channels produced by `splitProperties`. -/
structure SplitResult where
  properties : List (String × Value)
  nested : List (String × StylesObj)
  keyframes : List (String × KeyFrames)

/-- `splitProperties` from `css.ts`: one ordered pass over the node, keeping
the encounter order within each channel. `:`-keys become nested rules under
`& + key`; `$` splices its flattened rule entries; `animation` resolves via
`animationValues` and contributes a declaration plus hoisted keyframes. -/
def splitProperties (styles : StylesObj) (selector : String := "inline") : SplitResult :=
  go styles.entries
where
  go : List StyleEntry → SplitResult
    | [] => ⟨[], [], []⟩
    | .prop n v :: rest =>
      let r := go rest
      match v with
      | .undef => r
      | v => { r with properties := (n, v) :: r.properties }
    | .pseudo key s :: rest =>
      let r := go rest
      { r with nested := ("&" ++ key, s) :: r.nested }
    | .nest rules :: rest =>
      let r := go rest
      { r with nested := ruleEntries rules ++ r.nested }
    | .anim a :: rest =>
      let animation := animationValues a selector
      let r := go rest
      { r with
          properties := ("animation", .str animation.value) :: r.properties,
          keyframes := animation.keyframes ++ r.keyframes }

/-! ## The rule compiler (`css.ts`) -/

/-- Prefix test on character lists (used where JS calls `String.startsWith`). -/
def charsStart : List Char → List Char → Bool
  | [], _ => true
  | _ :: _, [] => false
  | c :: cs, d :: ds => c == d && charsStart cs ds

/-- `nestedAtRules` from `css.ts`: the conditional grouping at-rules that wrap
their parent rule. -/
def nestedAtRules : List String := ["@media", "@scope", "@starting-style", "@supports"]

/-- The at-rule branch test in `ruleSet`:
`parentSelector && selector[0] == '@' && nestedAtRules.some(r => selector.startsWith(r))`. -/
def isNestedAtRule (parentSelector selector : String) : Bool :=
  parentSelector != "" && selector.data.head? == some '@'
    && nestedAtRules.any (fun r => charsStart r.data selector.data)

/-- `selector.replace(/&/g, parentSelector)`. -/
def replaceAmp (selector parentSelector : String) : String :=
  ⟨selector.data.flatMap (fun c => if c = '&' then parentSelector.data else [c])⟩

/-- `selector.includes('&')` (a one-character `includes` is containment). -/
def hasAmp (selector : String) : Bool := selector.data.contains '&'

/-!
`ruleSet` and `styleRules` from `css.ts` recurse through the rule tree via the
lists inside `splitProperties`' output; to obtain a well-founded Lean
definition, the recursion below walks the underlying entry lists directly
(`nestedRules` together with `rulesOut`/`pairsOut`/`selsOut`/`manyOut`
replays exactly what `ruleSet` does on the `nested` channel, in the same
order). The theorem `styleRules_eq` below recovers the source shape
`styleRules = baseRule ++ ruleSet(nested) ++ keyframes` verbatim, so the pair
(`ruleSet`, `styleRules_eq`) is the faithful rendering of the two JS
functions. -/

mutual

/-- The body of `ruleSet`'s arrow function for one `(selector, styles)` pair:
at-rule children wrap each rule produced against the unchanged parent;
`&`-selectors substitute the parent; otherwise the parent (when present) is
space-composed with the child. -/
def oneRule (parentSelector selector : String) (styles : StylesObj) : List String :=
  if isNestedAtRule parentSelector selector then
    (styleRules parentSelector styles).map (fun rule => selector ++ " \x7b " ++ rule ++ " \x7d")
  else if hasAmp selector then
    styleRules (replaceAmp selector parentSelector) styles
  else if parentSelector != "" then
    styleRules (parentSelector ++ " " ++ selector) styles
  else
    styleRules selector styles
termination_by (sizeOf styles, 1)

/-- `styleRules` from `css.ts`: base rule, then nested rules, then hoisted
keyframe blocks. -/
def styleRules (selector : String) (styles : StylesObj) : List String :=
  baseRule selector (splitProperties styles selector).properties
    ++ nestedRules selector styles.entries
    ++ (splitProperties styles selector).keyframes.map (fun kf => keyframesCss kf.1 kf.2)
termination_by (sizeOf styles, 0)
decreasing_by
  cases styles with
  | mk es =>
    simp [StylesObj.entries]
    omega

/-- The `ruleSet selector nested` recursion of `styleRules`, walking the
entries that feed the `nested` channel in order. -/
def nestedRules (selector : String) : List StyleEntry → List String
  | [] => []
  | .pseudo key s :: rest => oneRule selector ("&" ++ key) s ++ nestedRules selector rest
  | .nest r :: rest => rulesOut selector r ++ nestedRules selector rest
  | .prop _ _ :: rest => nestedRules selector rest
  | .anim _ :: rest => nestedRules selector rest
termination_by entries => (sizeOf entries, 0)

/-- `ruleSet` applied to `ruleEntries` of a nested rule set. -/
def rulesOut (selector : String) : RulesT → List String
  | .obj l => pairsOut selector l
  | .arr l => selsOut selector l
termination_by r => (sizeOf r, 0)

def pairsOut (selector : String) : List (String × StylesObj) → List String
  | [] => []
  | (sel, st) :: rest => oneRule selector sel st ++ pairsOut selector rest
termination_by l => (sizeOf l, 0)

def selsOut (selector : String) : List (Sel × StylesObj) → List String
  | [] => []
  | (.one s, st) :: rest => oneRule selector s st ++ selsOut selector rest
  | (.many ss, st) :: rest => manyOut selector ss st ++ selsOut selector rest
termination_by l => (sizeOf l, 0)

def manyOut (selector : String) (ss : List String) (st : StylesObj) : List String :=
  match ss with
  | [] => []
  | s :: rest => oneRule selector s st ++ manyOut selector rest st
termination_by (sizeOf ss + sizeOf st, 0)

end

/-- `ruleSet` from `css.ts`, in its source shape: flat-map of the per-pair
branch over the `(selector, styles)` pairs. -/
def ruleSet (parentSelector : String) (rules : List (String × StylesObj)) : List String :=
  rules.flatMap (fun e => oneRule parentSelector e.1 e.2)

/-- `css` from `css.ts`: compile the top-level rule set against the empty
parent selector and newline-join. -/
def css (rules : RulesT) : String :=
  String.intercalate "\n" (ruleSet "" (ruleEntries rules))

/-! ### The walkers above replay `ruleSet` exactly -/

theorem ruleSet_nil (sel : String) : ruleSet sel [] = [] := rfl

theorem ruleSet_cons (sel : String) (e : String × StylesObj) (rest : List (String × StylesObj)) :
    ruleSet sel (e :: rest) = oneRule sel e.1 e.2 ++ ruleSet sel rest := by
  simp [ruleSet]

theorem ruleSet_append (sel : String) (l1 l2 : List (String × StylesObj)) :
    ruleSet sel (l1 ++ l2) = ruleSet sel l1 ++ ruleSet sel l2 := by
  simp [ruleSet]

theorem manyOut_eq (sel : String) (ss : List String) (st : StylesObj) :
    manyOut sel ss st = ruleSet sel (ss.map (fun s => (s, st))) := by
  induction ss with
  | nil => simp [manyOut, ruleSet]
  | cons s rest ih =>
    rw [show manyOut sel (s :: rest) st = oneRule sel s st ++ manyOut sel rest st by
      simp [manyOut]]
    rw [ih, List.map_cons, ruleSet_cons]

theorem pairsOut_eq (sel : String) (l : List (String × StylesObj)) :
    pairsOut sel l = ruleSet sel l := by
  induction l with
  | nil => simp [pairsOut, ruleSet]
  | cons e rest ih =>
    cases e with
    | mk s st =>
      rw [show pairsOut sel ((s, st) :: rest) = oneRule sel s st ++ pairsOut sel rest by
        simp [pairsOut]]
      rw [ih, ruleSet_cons]

theorem selsOut_eq (sel : String) (l : List (Sel × StylesObj)) :
    selsOut sel l = ruleSet sel (ruleEntries (.arr l)) := by
  induction l with
  | nil => simp [selsOut, ruleSet, ruleEntries]
  | cons e rest ih =>
    cases e with
    | mk s st =>
      cases s with
      | one s1 =>
        rw [show selsOut sel ((Sel.one s1, st) :: rest)
            = oneRule sel s1 st ++ selsOut sel rest by simp [selsOut]]
        rw [ih]
        simp [ruleEntries, ruleSet]
      | many ss =>
        rw [show selsOut sel ((Sel.many ss, st) :: rest)
            = manyOut sel ss st ++ selsOut sel rest by simp [selsOut]]
        rw [ih, manyOut_eq]
        simp [ruleEntries, ruleSet]

theorem rulesOut_eq (sel : String) (r : RulesT) :
    rulesOut sel r = ruleSet sel (ruleEntries r) := by
  cases r with
  | obj l => rw [show rulesOut sel (.obj l) = pairsOut sel l by simp [rulesOut]]
             rw [pairsOut_eq]; rfl
  | arr l => rw [show rulesOut sel (.arr l) = selsOut sel l by simp [rulesOut]]
             rw [selsOut_eq]

theorem nestedRules_eq (sel : String) (es : List StyleEntry) :
    nestedRules sel es = ruleSet sel (splitProperties.go sel es).nested := by
  induction es with
  | nil => simp [nestedRules, splitProperties.go, ruleSet]
  | cons e rest ih =>
    cases e with
    | prop n v =>
      rw [show nestedRules sel (.prop n v :: rest) = nestedRules sel rest by
        simp [nestedRules]]
      rw [ih]
      cases v <;> simp [splitProperties.go]
    | pseudo key s =>
      rw [show nestedRules sel (.pseudo key s :: rest)
          = oneRule sel ("&" ++ key) s ++ nestedRules sel rest by simp [nestedRules]]
      rw [ih]
      simp only [splitProperties.go]
      rw [ruleSet_cons]
    | nest r =>
      rw [show nestedRules sel (.nest r :: rest)
          = rulesOut sel r ++ nestedRules sel rest by simp [nestedRules]]
      rw [ih, rulesOut_eq]
      simp only [splitProperties.go]
      rw [ruleSet_append]
    | anim a =>
      rw [show nestedRules sel (.anim a :: rest) = nestedRules sel rest by
        simp [nestedRules]]
      rw [ih]
      simp [splitProperties.go]

/-- `styleRules` has exactly the source shape
`baseRule(selector, properties).concat(ruleSet(selector, nested)).concat(keyframes.map(keyframesCss))`. -/
theorem styleRules_eq (sel : String) (st : StylesObj) :
    styleRules sel st
      = baseRule sel (splitProperties st sel).properties
        ++ ruleSet sel (splitProperties st sel).nested
        ++ (splitProperties st sel).keyframes.map (fun kf => keyframesCss kf.1 kf.2) := by
  cases st with
  | mk es =>
    rw [show styleRules sel (.mk es)
        = baseRule sel (splitProperties (.mk es) sel).properties
          ++ nestedRules sel es
          ++ (splitProperties (.mk es) sel).keyframes.map (fun kf => keyframesCss kf.1 kf.2) by
      simp [styleRules, StylesObj.entries]]
    rw [nestedRules_eq]
    rfl

/-! ## The registration ledger (`styling.ts`)

The embedding covers the default registration mode (`hmrEnabled = false`), in
which `identifyRegistration` returns `[undefined, registrations.length]`
without inspecting the stack; the optional identity-aware mode depends on
runtime stack-trace text and is outside this model. Styles registered through
`style` are mutable shared objects (their `StyleRendered` flag is flipped
later by `updateStylesheet`), so style payloads live in an arena and handles
reference them by index; keyframe payloads have their flag set only at
registration time and are stored by value. -/

/-- A font-face definition as its `Object.entries` list. -/
abbrev FontFaceDefinition := List (String × Value)

/-- `fontFaceCss` from `css.ts`. -/
def fontFaceCss (fontFace : FontFaceDefinition) : String :=
  "@font-face \x7b " ++ cssProperties fontFace ++ " \x7d"

mutual

/-- A CSS variable handle made by `createVariable`: captured name, originating
property, and optional fallback chain. The only own enumerable field of the
JS object is `var: [name, fallback]`. -/
inductive VariableH where
  | mk (name : String) (property : String) (fallback : Option VarFb)

/-- A fallback: a literal property value or another variable handle. -/
inductive VarFb where
  | val (v : Value)
  | var (h : VariableH)

end

def VariableH.name : VariableH → String
  | .mk n _ _ => n

def VariableH.property : VariableH → String
  | .mk _ p _ => p

def VariableH.fallback : VariableH → Option VarFb
  | .mk _ _ f => f

/-- `createVariable` from `styling.ts` (the object construction; its three
methods are `VariableH.set`, `VariableH.or` and `VariableH.toString` below). -/
def createVariable (name property : String) (fallback : Option VarFb := none) : VariableH :=
  .mk name property fallback

mutual

/-- How `cssPropertyValue` sees a variable handle: a plain object whose own
entries are `var: [name, fallback]`. -/
def varToValue : VariableH → Value
  | .mk name _ fb => .fns [("var", .arr [.str name, varFbToValue fb])]

/-- A raw fallback slot as a JS value (`undefined` when absent). -/
def varFbToValue : Option VarFb → Value
  | none => .undef
  | some (.val v) => v
  | some (.var h) => varToValue h

end

/-- `set` on a variable: `{ [name]: cssPropertyValue(property, value) }` —
one declaration, with no self-reference check anywhere in the code. -/
def VariableH.set (h : VariableH) (value : VarFb) : String × Option String :=
  (h.name, cssPropertyValue h.property (varFbToValue (some value)))

/-- `or` on a variable: a new handle with the same name whose fallback chain
is deepened when the current fallback is itself a variable, otherwise
replaced. -/
def VariableH.or : VariableH → VarFb → VariableH
  | .mk n p fb, newFallback =>
    .mk n p (some (match fb with
      | some (.var f) => .var (f.or newFallback)
      | _ => newFallback))

/-- `toString` on a variable:
`var(${[name, cssPropertyValue(property, fallback)].filter(Boolean).join(', ')})`
(the `Boolean` filter drops `undefined` and empty strings). -/
def VariableH.toString (h : VariableH) : String :=
  "var("
    ++ String.intercalate ", "
      (([some h.name, cssPropertyValue h.property (varFbToValue h.fallback)]).filterMap
        (fun o => match o with
          | some s => if s = "" then none else some s
          | none => none))
    ++ ")"

/-- The process-wide registries of `styling.ts`. -/
structure StylingState where
  stylePayloads : List (StylesObj × Option Bool)
  registeredFontFaces : List FontFaceDefinition
  registeredRules : List RulesT
  registeredStyles : List (String × Nat)
  registeredKeyframes : List (String × KeyFrames)
  registeredVariables : List VariableH
  stylesheetRequired : Bool

/-- The registries start empty and stylesheet enforcement starts on. -/
def initialState : StylingState :=
  { stylePayloads := [], registeredFontFaces := [], registeredRules := [],
    registeredStyles := [], registeredKeyframes := [], registeredVariables := [],
    stylesheetRequired := true }

/-- JS `l[i] = a`: overwrite in range, append at `i = length` (the only
out-of-range index these registries ever see). -/
def jsSetAt (l : List α) (i : Nat) (a : α) : List α :=
  if i < l.length then l.set i a else l ++ [a]

/-- Registration errors (the JS `Error` messages are noted at each use). -/
inductive StyleError where
  | duplicateRegistration (name : String)
  | notInStylesheet (name : String)
deriving Repr, DecidableEq

/-- A registered style handle: the value returned by `style`, which prints as
its assigned name and aliases the arena payload carrying the rendered flag. -/
structure StyleHandle where
  name : String
  payload : Nat

/-- `register` from `styling.ts`, specialized to the styles registry, in
default mode: the index is the current registry length, the assigned name is
`name + '-' + index`, the duplicate check
(`registry[index]?.[1][StyleRendered] === false`, the JS error being
`'<name>' style registered more than once between stylesheet updates...`)
never fires because the slot at `length` is vacant, the payload is stored
with its rendered flag set to `false`, and the suffixed name is returned. -/
def registerStyle (st : StylingState) (name : String) (styling : StylesObj) :
    Except StyleError (StylingState × StyleHandle) :=
  let index := st.registeredStyles.length
  let suffixedName := name ++ "-" ++ decStr index
  let clash := (st.registeredStyles.get? index).bind
    (fun entry => (st.stylePayloads.get? entry.2).map (fun pl => pl.2 == some false))
  if clash == some true then
    .error (.duplicateRegistration suffixedName)
  else
    let pid := st.stylePayloads.length
    .ok ({ st with
            stylePayloads := st.stylePayloads ++ [(styling, some false)],
            registeredStyles := jsSetAt st.registeredStyles index (suffixedName, pid) },
         ⟨suffixedName, pid⟩)

/-- `register` specialized to the keyframes registry (default mode), used by
the named `animation` overload; returns the suffixed name and the payload now
carrying the registered marker. -/
def registerKeyframes (st : StylingState) (name : String) (keyframes : KeyFrames) :
    Except StyleError (StylingState × String × KeyFrames) :=
  let index := st.registeredKeyframes.length
  let suffixedName := name ++ "-" ++ decStr index
  let clash := (st.registeredKeyframes.get? index).map (fun entry => entry.2.rendered == some false)
  if clash == some true then
    .error (.duplicateRegistration suffixedName)
  else
    let marked := { keyframes with rendered := some false }
    .ok ({ st with registeredKeyframes := jsSetAt st.registeredKeyframes index (suffixedName, marked) },
         suffixedName, marked)

/-- `style` from `styling.ts`: register and hand back the stringifiable
handle. -/
def style (st : StylingState) (name : String) (styles : StylesObj) :
    Except StyleError (StylingState × StyleHandle) :=
  registerStyle st name styles

/-- The named overload of `animation` from `styling.ts`: registers the
keyframe set (marking it) and builds the definition with the registered name
taking precedence. -/
def animation (st : StylingState) (name : String) (keyframes : KeyFrames)
    (duration : Option Value := none) (timing : Option Value := none)
    (delay : Option Value := none) (iterationCount : Option Value := none)
    (direction : Option Value := none) (fillMode : Option Value := none)
    (playState : Option Value := none) :
    Except StyleError (StylingState × AnimationDefinition) :=
  match registerKeyframes st name keyframes with
  | .error e => .error e
  | .ok (st', registeredName, marked) =>
    .ok (st',
      { animationName := some registeredName, keyframes := some marked,
        animationDuration := duration, animationTimingFunction := timing,
        animationDelay := delay, animationIterationCount := iterationCount,
        animationDirection := direction, animationFillMode := fillMode,
        animationPlayState := playState })

/-- The anonymous overload of `animation`: `args.unshift(undefined)`, no
registration, keyframe set left unmarked. -/
def animationAnon (keyframes : KeyFrames)
    (duration : Option Value := none) (timing : Option Value := none)
    (delay : Option Value := none) (iterationCount : Option Value := none)
    (direction : Option Value := none) (fillMode : Option Value := none)
    (playState : Option Value := none) : AnimationDefinition :=
  { animationName := none, keyframes := some keyframes,
    animationDuration := duration, animationTimingFunction := timing,
    animationDelay := delay, animationIterationCount := iterationCount,
    animationDirection := direction, animationFillMode := fillMode,
    animationPlayState := playState }

/-- `variable` from `styling.ts` (default mode): prefix is `name || property`,
index is the variable registry length, the handle is created as
`--<prefix>-<index>` and stored at that index. -/
def variableFn (st : StylingState) (property : String) (name : Option String := none) :
    StylingState × VariableH :=
  let namePrefix := match name with
    | some s => if s = "" then property else s
    | none => property
  let index := st.registeredVariables.length
  let varName := "--" ++ namePrefix ++ "-" ++ decStr index
  let v := createVariable varName property
  ({ st with registeredVariables := jsSetAt st.registeredVariables index v }, v)

/-- `cssRules` from `styling.ts`. -/
def cssRules (st : StylingState) (rules : RulesT) : StylingState :=
  { st with registeredRules := st.registeredRules ++ [rules] }

/-- An argument to `classes`: `undefined`, `false`, a handle, or an array. -/
inductive StyleCollection where
  | undef
  | falseV
  | handle (h : StyleHandle)
  | coll (l : List StyleCollection)

/-- JS truthiness on a `StyleCollection` (`undefined` and `false` are falsy;
objects and arrays, even empty ones, are truthy). -/
def StyleCollection.truthy : StyleCollection → Bool
  | .undef => false
  | .falseV => false
  | _ => true

/-- The handle's `StyleRendered` flag as visible through the arena. -/
def flagOfHandle (st : StylingState) (h : StyleHandle) : Option Bool :=
  match st.stylePayloads.get? h.payload with
  | some pl => pl.2
  | none => none

mutual

/-- `classes` from `styling.ts`: falsy input gives `""`; an array filters out
falsy entries, resolves each and space-joins; a handle resolves to its name
when its rendered flag is set or enforcement is off, and otherwise throws
(`'<name>' style is being used, but hasn't been added to the stylesheet.`). -/
def classes (st : StylingState) : StyleCollection → Except StyleError String
  | .undef => .ok ""
  | .falseV => .ok ""
  | .coll l =>
    match classesList st l with
    | .error e => .error e
    | .ok parts => .ok (String.intercalate " " parts)
  | .handle h =>
    if flagOfHandle st h == some true || !st.stylesheetRequired then .ok h.name
    else .error (.notInStylesheet h.name)
termination_by c => sizeOf c

/-- `filter(Boolean).map(classes)` fused into one left-to-right walk (JS
`map` stops at the first thrown error). -/
def classesList (st : StylingState) : List StyleCollection → Except StyleError (List String)
  | [] => .ok []
  | c :: rest =>
    if c.truthy then
      match classes st c with
      | .error e => .error e
      | .ok s =>
        match classesList st rest with
        | .error e => .error e
        | .ok ss => .ok (s :: ss)
    else classesList st rest
termination_by l => sizeOf l

end

/-- `getCss` from `styling.ts`: font-faces, then raw rules, then registered
styles wrapped under `.name`, then registered keyframe blocks, newline
joined. -/
def getCss (st : StylingState) : String :=
  String.intercalate "\n"
    (st.registeredFontFaces.map fontFaceCss
      ++ st.registeredRules.map css
      ++ st.registeredStyles.map (fun e =>
          css (.obj [("." ++ e.1, ((st.stylePayloads.get? e.2).map Prod.fst).getD (.mk []))]))
      ++ st.registeredKeyframes.map (fun e => keyframesCss e.1 e.2))

/-- `updateStylesheet` from `styling.ts`, restricted to its registry effect:
every payload referenced from the styles registry has its rendered flag set
to `true` (writing the CSS text into the DOM node is outside this model;
`getCss` above is the text it writes). -/
def updateStylesheet (st : StylingState) : StylingState :=
  { st with
      stylePayloads := st.stylePayloads.enum.map (fun e =>
        if st.registeredStyles.any (fun r => r.2 == e.1) then (e.2.1, some true) else e.2) }

/-- `resetStyles` from `styling.ts`: deletes the rendered flag from every
payload referenced by the styles registry, then clears the font-face, style,
rule and keyframe registries. The variables registry is not touched. -/
def resetStyles (st : StylingState) : StylingState :=
  { st with
      stylePayloads := st.stylePayloads.enum.map (fun e =>
        if st.registeredStyles.any (fun r => r.2 == e.1) then (e.2.1, none) else e.2),
      registeredFontFaces := [],
      registeredStyles := [],
      registeredRules := [],
      registeredKeyframes := [] }

/-- `requireStylesheet` from `styling.ts`. -/
def requireStylesheet (st : StylingState) (enable : Bool := true) : StylingState :=
  { st with stylesheetRequired := enable }

/-! ## Helper lemmas about registration runs -/

theorem intercalate_two (s a b : String) : String.intercalate s [a, b] = a ++ s ++ b := rfl

theorem intercalate_one (s a : String) : String.intercalate s [a] = a := rfl

/-- In default mode a style registration always succeeds: the slot at index
`length` is vacant, so the duplicate check cannot fire; the registry and the
payload arena each grow by one, and the handle carries the suffixed name. -/
theorem registerStyle_eq (st : StylingState) (b : String) (s : StylesObj) :
    registerStyle st b s = .ok
      ({ st with
          stylePayloads := st.stylePayloads ++ [(s, some false)],
          registeredStyles := st.registeredStyles
            ++ [(b ++ "-" ++ decStr st.registeredStyles.length, st.stylePayloads.length)] },
       ⟨b ++ "-" ++ decStr st.registeredStyles.length, st.stylePayloads.length⟩) := by
  have hnone : st.registeredStyles.get? st.registeredStyles.length = none := by
    simp [List.get?_eq_none]
  simp [registerStyle, hnone, jsSetAt]

/-- Same for keyframe registration through the named `animation` overload. -/
theorem registerKeyframes_eq (st : StylingState) (b : String) (kf : KeyFrames) :
    registerKeyframes st b kf = .ok
      ({ st with
          registeredKeyframes := st.registeredKeyframes
            ++ [(b ++ "-" ++ decStr st.registeredKeyframes.length,
                { kf with rendered := some false })] },
       b ++ "-" ++ decStr st.registeredKeyframes.length, { kf with rendered := some false }) := by
  have hnone : st.registeredKeyframes.get? st.registeredKeyframes.length = none := by
    simp [List.get?_eq_none]
  simp [registerKeyframes, hnone, jsSetAt]

/-- A sequence of style registrations, returning the assigned names in order
(the error branch is unreachable in default mode by `registerStyle_eq`). -/
def registerRun (st : StylingState) : List (String × StylesObj) → List String
  | [] => []
  | (b, s) :: rest =>
    match registerStyle st b s with
    | .ok (st', h) => h.name :: registerRun st' rest
    | .error _ => []

/-- A sequence of keyframe registrations, returning the assigned names. -/
def keyframesRun (st : StylingState) : List (String × KeyFrames) → List String
  | [] => []
  | (b, kf) :: rest =>
    match registerKeyframes st b kf with
    | .ok (st', n, _) => n :: keyframesRun st' rest
    | .error _ => []

/-- The names assigned by a run: each base name suffixed with the registry
size at its registration time. -/
theorem registerRun_names : ∀ (regs : List (String × StylesObj)) (st : StylingState),
    registerRun st regs
      = (List.enumFrom st.registeredStyles.length regs).map
          (fun e => e.2.1 ++ "-" ++ decStr e.1) := by
  intro regs
  induction regs with
  | nil => intro st; simp [registerRun]
  | cons r rest ih =>
    intro st
    cases r with
    | mk b s =>
      rw [show registerRun st ((b, s) :: rest)
          = (b ++ "-" ++ decStr st.registeredStyles.length)
            :: registerRun ({ st with
                stylePayloads := st.stylePayloads ++ [(s, some false)],
                registeredStyles := st.registeredStyles
                  ++ [(b ++ "-" ++ decStr st.registeredStyles.length,
                      st.stylePayloads.length)] }) rest by
        simp [registerRun, registerStyle_eq]]
      rw [ih]
      simp [List.enumFrom]

theorem keyframesRun_names : ∀ (regs : List (String × KeyFrames)) (st : StylingState),
    keyframesRun st regs
      = (List.enumFrom st.registeredKeyframes.length regs).map
          (fun e => e.2.1 ++ "-" ++ decStr e.1) := by
  intro regs
  induction regs with
  | nil => intro st; simp [keyframesRun]
  | cons r rest ih =>
    intro st
    cases r with
    | mk b kf =>
      rw [show keyframesRun st ((b, kf) :: rest)
          = (b ++ "-" ++ decStr st.registeredKeyframes.length)
            :: keyframesRun ({ st with
                registeredKeyframes := st.registeredKeyframes
                  ++ [(b ++ "-" ++ decStr st.registeredKeyframes.length,
                      { kf with rendered := some false })] }) rest by
        simp [keyframesRun, registerKeyframes_eq]]
      rw [ih]
      simp [List.enumFrom]

theorem mem_enumFrom_le {α : Type} : ∀ (l : List α) (k : Nat) (p : Nat × α),
    p ∈ List.enumFrom k l → k ≤ p.1 := by
  intro l
  induction l with
  | nil => intro k p h; simp [List.enumFrom] at h
  | cons x xs ih =>
    intro k p h
    simp [List.enumFrom] at h
    rcases h with rfl | h
    · simp
    · have := ih (k + 1) p h
      omega

theorem enumFrom_pairwise_lt {α : Type} : ∀ (l : List α) (k : Nat),
    (List.enumFrom k l).Pairwise (fun a b => a.1 < b.1) := by
  intro l
  induction l with
  | nil => intro k; simp [List.enumFrom]
  | cons x xs ih =>
    intro k
    simp only [List.enumFrom]
    refine List.Pairwise.cons ?_ (ih (k + 1))
    intro p hp
    have := mem_enumFrom_le xs (k + 1) p hp
    simp
    omega

/-- No two names assigned during one run coincide: the indices differ, and a
`<base>-<index>` name determines its index. -/
theorem registerRun_pairwise (st : StylingState) (regs : List (String × StylesObj)) :
    (registerRun st regs).Pairwise (· ≠ ·) := by
  rw [registerRun_names]
  refine List.Pairwise.map _ ?_ (enumFrom_pairwise_lt regs st.registeredStyles.length)
  intro a b hab
  exact suffixedName_ne (by omega)

/-! ## Value-formatter helper lemmas -/

theorem innerParts_eq (p : String) (ws : List Value) :
    innerParts p ws = ws.map (fun w => jsJoinElem (cssPropertyValue p w)) := by
  induction ws with
  | nil => simp [innerParts]
  | cons w rest ih =>
    rw [show innerParts p (w :: rest)
        = jsJoinElem (cssPropertyValue p w) :: innerParts p rest by simp [innerParts]]
    rw [ih]
    rfl

theorem arrayParts_eq (p : String) (seps : List String) (vs : List Value) :
    arrayParts p seps vs = vs.map (fun v =>
      match v with
      | .arr ws => String.intercalate (seps.headD ", ")
          (ws.map (fun w => jsJoinElem (cssPropertyValue p w)))
      | v => jsJoinElem (cssPropertyValue p v)) := by
  induction vs with
  | nil => simp [arrayParts]
  | cons v rest ih =>
    cases v <;> simp [arrayParts, ih, innerParts_eq]

/-! ## The claims -/

/-- C1: compiling the rule set `{".a": {width: 5, "$": {"input": {width: 1}}}}`
produces exactly two rule strings in this order, `.a { width: 5px; }` then
`.a input { width: 1px; }` — own declarations first as one base rule, then
the nested rule under the space-composed descendant selector — and the
top-level result is newline-joined with no trailing separator. -/
theorem c1_compile_nested_scenario :
    ruleSet "" (ruleEntries (.obj [(".a", .mk [.prop "width" (.num 5),
        .nest (.obj [("input", .mk [.prop "width" (.num 1)])])])]))
      = [".a \x7b width: 5px; \x7d", ".a input \x7b width: 1px; \x7d"]
    ∧ css (.obj [(".a", .mk [.prop "width" (.num 5),
        .nest (.obj [("input", .mk [.prop "width" (.num 1)])])])])
      = ".a \x7b width: 5px; \x7d\n.a input \x7b width: 1px; \x7d" := by
  constructor
  · simp [ruleSet, ruleEntries, oneRule, styleRules, nestedRules, rulesOut, pairsOut,
      splitProperties, splitProperties.go, StylesObj.entries, baseRule, cssProperties,
      kebabCase, cssPropertyValue, propertyDefaults, defaultUnit, jsInterp,
      isNestedAtRule, hasAmp, replaceAmp, charsStart, nestedAtRules,
      decStr, decChars, decCharsFuel, decDigit]
    constructor <;> rfl
  · simp [css, ruleSet, ruleEntries, oneRule, styleRules, nestedRules, rulesOut, pairsOut,
      splitProperties, splitProperties.go, StylesObj.entries, baseRule, cssProperties,
      kebabCase, cssPropertyValue, propertyDefaults, defaultUnit, jsInterp,
      isNestedAtRule, hasAmp, replaceAmp, charsStart, nestedAtRules,
      decStr, decChars, decCharsFuel, decDigit]
    rfl

/-- C2: for every property name absent from the per-property default table,
formatting a numeric value `n` yields the decimal of `n` with `px` appended,
and formatting any string value yields that string unchanged. -/
theorem c2_default_px_and_string_identity (p : String) (n : Nat) (s : String)
    (h : propertyDefaults p = none) :
    cssPropertyValue p (.num n) = some (decStr n ++ "px")
    ∧ cssPropertyValue p (.str s) = some s := by
  constructor
  · rw [show cssPropertyValue p (.num n)
        = ((propertyDefaults p).getD (defaultUnit "px")) (.num n) by simp [cssPropertyValue]]
    rw [h]
    simp [defaultUnit]
  · rw [show cssPropertyValue p (.str s)
        = ((propertyDefaults p).getD (defaultUnit "px")) (.str s) by simp [cssPropertyValue]]
    rw [h]
    simp [defaultUnit]

/-- C2 witness: `width` is not in the default table; `width: 5` formats to
`5px` and `width: "5%"` to `5%`. -/
theorem c2_witness :
    propertyDefaults "width" = none
    ∧ cssPropertyValue "width" (.num 5) = some "5px"
    ∧ cssPropertyValue "width" (.str "5%") = some "5%" := by
  have h := c2_default_px_and_string_identity "width" 5 "5%" rfl
  refine ⟨rfl, ?_, h.2⟩
  rw [h.1]
  rfl

/-- C3 counterexample: the claim predicts that `gridTemplate` (separators
`[" ", " / "]`) formats `["max-content", [1, 2]]` with the primary separator
at the outer level and the secondary inside, giving
`max-content 1px / 2px`; the code produces `max-content / 1px 2px`, with the
separators the other way around. -/
theorem c3_counterexample :
    arrayValues "gridTemplate" [.str "max-content", .arr [.num 1, .num 2]]
      = "max-content / 1px 2px"
    ∧ ("max-content / 1px 2px" : String) ≠ "max-content 1px / 2px" := by
  constructor
  · rw [show arrayValues "gridTemplate" [.str "max-content", .arr [.num 1, .num 2]]
        = String.intercalate " / "
            (arrayParts "gridTemplate" [" ", " / "]
              [.str "max-content", .arr [.num 1, .num 2]]) by
      simp [arrayValues, propertySeparators, Value.isArr]]
    rw [arrayParts_eq]
    simp [cssPropertyValue, scalarParam, propertyDefaults, defaultUnit, jsJoinElem,
      decStr, decChars, decCharsFuel, decDigit]
    rfl
  · decide

/-- C3 amended: for every property whose separator table has two entries, an
array containing a nested sub-array joins the elements of the inner sub-array
with the first (primary) separator and the elements of the outer array with
the second (secondary) separator. -/
theorem c3_nested_separator_amended (p : String) (s1 s2 : String) (vs : List Value)
    (hsep : propertySeparators p = some [s1, s2])
    (hnest : vs.any Value.isArr = true) :
    arrayValues p vs
      = String.intercalate s2 (vs.map (fun v =>
          match v with
          | .arr ws => String.intercalate s1
              (ws.map (fun w => jsJoinElem (cssPropertyValue p w)))
          | v => jsJoinElem (cssPropertyValue p v))) := by
  rw [show arrayValues p vs
      = String.intercalate
          (((propertySeparators p).getD [", "]).getD
            (min (if vs.any Value.isArr then 1 else 0)
              (((propertySeparators p).getD [", "]).length - 1)) ", ")
          (arrayParts p ((propertySeparators p).getD [", "]) vs) by simp [arrayValues]]
  rw [hsep, arrayParts_eq]
  simp [hnest]

/-- C3 witness: the amended claim at the `gridTemplate` example. -/
theorem c3_witness :
    propertySeparators "gridTemplate" = some [" ", " / "]
    ∧ arrayValues "gridTemplate" [.str "max-content", .arr [.num 1, .num 2]]
        = "max-content / 1px 2px" := by
  refine ⟨rfl, ?_⟩
  rw [c3_nested_separator_amended "gridTemplate" " " " / "
    [.str "max-content", .arr [.num 1, .num 2]] rfl rfl]
  simp [cssPropertyValue, scalarParam, propertyDefaults, defaultUnit, jsJoinElem,
    decStr, decChars, decCharsFuel, decDigit]
  rfl

/-- C4: two independent inline unregistered keyframe sets referenced from
selector `.test` in the same compile pass are assigned `test-animation-0` and
`test-animation-1` (the selector with non-word characters collapsed to `_`,
one leading underscore stripped, suffixed with the zero-based occurrence
index), the synthesized names are patched into the definitions before
formatting, and both sets are queued for hoisting; an animation whose
keyframe set carries the registered marker is formatted with its name
verbatim and hoists nothing. -/
theorem c4_inline_animation_naming (f1 f2 : List (String × List (String × Value)))
    (a1 a2 a3 a4 a5 a6 a7 b1 b2 b3 b4 b5 b6 b7 : Option Value) :
    animationValues (.multi
        [.defn (AnimationDefinition.mk none (some ⟨f1, none⟩) a1 a2 a3 a4 a5 a6 a7),
         .defn (AnimationDefinition.mk none (some ⟨f2, none⟩) b1 b2 b3 b4 b5 b6 b7)]) ".test"
      = { value :=
            animationFromDefinition (AnimationDefinition.mk (some "test-animation-0")
              (some ⟨f1, none⟩) a1 a2 a3 a4 a5 a6 a7)
            ++ ", "
            ++ animationFromDefinition (AnimationDefinition.mk (some "test-animation-1")
              (some ⟨f2, none⟩) b1 b2 b3 b4 b5 b6 b7),
          keyframes := [("test-animation-0", ⟨f1, none⟩), ("test-animation-1", ⟨f2, none⟩)] }
    ∧ (∀ (d : AnimationDefinition) (frames : List (String × List (String × Value))) (b : Bool)
        (sel : String) (i : Nat),
        singleAnimation (.defn { d with keyframes := some ⟨frames, some b⟩ }) sel i
          = { value := animationFromDefinition { d with keyframes := some ⟨frames, some b⟩ },
              keyframes := [] }) := by
  constructor
  · have e0 : inlineAnimationName none ".test" 0 = "test-animation-0" := rfl
    have e1 : inlineAnimationName none ".test" 1 = "test-animation-1" := rfl
    simp [animationValues, List.enum, List.enumFrom, singleAnimation, e0, e1]
  · intro d frames b sel i
    simp [singleAnimation]

/-- C5: a nested rule whose selector is a conditional at-rule (the fixed
prefix set media, scope, starting-style, supports) compiles its body against
the unchanged parent selector and wraps each emitted inner rule independently
in `<childSelector> { <rule> }`. -/
theorem c5_at_rule_wrapping (parent sel : String) (styles : StylesObj)
    (h : isNestedAtRule parent sel = true) :
    oneRule parent sel styles
      = (styleRules parent styles).map (fun rule => sel ++ " \x7b " ++ rule ++ " \x7d") := by
  rw [show oneRule parent sel styles
      = (if isNestedAtRule parent sel then
          (styleRules parent styles).map (fun rule => sel ++ " \x7b " ++ rule ++ " \x7d")
        else if hasAmp sel then styleRules (replaceAmp sel parent) styles
        else if parent != "" then styleRules (parent ++ " " ++ sel) styles
        else styleRules sel styles) by simp [oneRule]]
  simp [h]

/-- C5 witness: a `@media screen` child of `.test` holding a declaration and a
nested pseudo-selector yields two separate `@media screen { ... }` blocks,
one per inner rule. -/
theorem c5_witness :
    isNestedAtRule ".test" "@media screen" = true
    ∧ oneRule ".test" "@media screen"
        (.mk [.prop "width" (.num 1), .pseudo "::before" (.mk [.prop "width" (.num 2)])])
      = (styleRules ".test"
          (.mk [.prop "width" (.num 1), .pseudo "::before" (.mk [.prop "width" (.num 2)])])).map
        (fun rule => "@media screen" ++ " \x7b " ++ rule ++ " \x7d")
    ∧ css (.obj [(".test", .mk [.nest (.obj [("@media screen",
        .mk [.prop "width" (.num 1), .pseudo "::before" (.mk [.prop "width" (.num 2)])])])])])
        = "@media screen \x7b .test \x7b width: 1px; \x7d \x7d\n@media screen \x7b .test::before \x7b width: 2px; \x7d \x7d" := by
  refine ⟨rfl, c5_at_rule_wrapping ".test" "@media screen" _ rfl, ?_⟩
  simp [css, ruleSet, ruleEntries, oneRule, styleRules, nestedRules, rulesOut, pairsOut,
    splitProperties, splitProperties.go, StylesObj.entries, baseRule, cssProperties,
    kebabCase, cssPropertyValue, propertyDefaults, defaultUnit, jsInterp,
    isNestedAtRule, hasAmp, replaceAmp, charsStart, nestedAtRules,
    decStr, decChars, decCharsFuel, decDigit]
  rfl

/-- C6: with identity-aware (HMR) mode disabled, each registration is assigned
`<baseName>-<n>` where `n` is the registry size at registration time; a run of
registrations (same base names or not, equal payloads or not) therefore gets
strictly increasing indices, and all names assigned in a registry are pairwise
distinct. -/
theorem c6_default_mode_naming (st : StylingState) (regs : List (String × StylesObj))
    (b : String) (s : StylesObj) :
    (registerStyle st b s).map (fun r => r.2.name)
      = .ok (b ++ "-" ++ decStr st.registeredStyles.length)
    ∧ registerRun st regs
        = (List.enumFrom st.registeredStyles.length regs).map
            (fun e => e.2.1 ++ "-" ++ decStr e.1)
    ∧ (registerRun st regs).Pairwise (· ≠ ·) := by
  refine ⟨?_, registerRun_names regs st, registerRun_pairwise st regs⟩
  rw [registerStyle_eq]
  rfl

/-- C7: with stylesheet enforcement on, resolving
`classes([handleA, false, handleB])` before either handle has been flushed
fails synchronously naming the first offending identifier; after
`updateStylesheet` marks both payloads rendered, the same call returns
`"<nameA> <nameB>"` with the falsy entry filtered out. -/
theorem c7_classes_enforcement (nA nB : String) (sA sB : StylesObj) :
    (do
      let r1 ← style initialState nA sA
      let r2 ← style r1.1 nB sB
      classes r2.1 (.coll [.handle r1.2, .falseV, .handle r2.2]))
      = .error (.notInStylesheet (nA ++ "-0"))
    ∧ (do
      let r1 ← style initialState nA sA
      let r2 ← style r1.1 nB sB
      classes (updateStylesheet r2.1) (.coll [.handle r1.2, .falseV, .handle r2.2]))
      = .ok ((nA ++ "-0") ++ " " ++ (nB ++ "-1")) := by
  constructor
  · simp [style, registerStyle_eq, initialState, Bind.bind, Except.bind, classes, classesList,
      StyleCollection.truthy, flagOfHandle, decStr, decChars, decCharsFuel, decDigit]
    rw [String.append_assoc]
    rfl
  · simp [style, registerStyle_eq, initialState, Bind.bind, Except.bind, classes, classesList,
      StyleCollection.truthy, flagOfHandle, updateStylesheet, List.enum, List.enumFrom,
      decStr, decChars, decCharsFuel, decDigit, intercalate_two]
    rw [String.append_assoc nA "-" "0", String.append_assoc nB "-" "1"]
    rfl

/-- C8 counterexample: the claim says reset clears all registries, so that
register, reset, register with identical inputs reproduces the fresh-run name
sequence; but `resetStyles` does not clear the variables registry, so a
variable registered after a reset is named `--test-1` where a fresh run
yields `--test-0`. -/
theorem c8_counterexample :
    ((variableFn (resetStyles (variableFn initialState "width" (some "test")).1) "width"
        (some "test")).2).name = "--test-1"
    ∧ ((variableFn initialState "width" (some "test")).2).name = "--test-0"
    ∧ ("--test-1" : String) ≠ "--test-0" :=
  ⟨rfl, rfl, by decide⟩

/-- C8 amended: reset is idempotent for the registries it clears — after
`resetStyles`, style and keyframe registration runs reproduce exactly the
fresh-run name sequences, because the font-face, rule, style and keyframe
registries are emptied and rendered flags stripped; the variables registry is
not cleared, so a variable created after reset gets the same name it would
have gotten without the reset (its index keeps counting). -/
theorem c8_reset_amended (st : StylingState) (regs : List (String × StylesObj))
    (kfs : List (String × KeyFrames)) (p : String) (nm : Option String) :
    registerRun (resetStyles st) regs = registerRun initialState regs
    ∧ keyframesRun (resetStyles st) kfs = keyframesRun initialState kfs
    ∧ ((variableFn (resetStyles st) p nm).2).name = ((variableFn st p nm).2).name := by
  refine ⟨?_, ?_, ?_⟩
  · rw [registerRun_names, registerRun_names]
    simp [resetStyles, initialState]
  · rw [keyframesRun_names, keyframesRun_names]
    simp [resetStyles, initialState]
  · simp [variableFn, resetStyles, createVariable, VariableH.name]

/-- C9: constructing an assignment that sets a variable handle to reference
itself does not fail — `set` has no self-reference check and simply formats
the handle as its own fallback-less `var()` reference, yielding the
declaration `--test-0: var(--test-0, )`. (The spec and the test suite demand
a synchronous failure here.) -/
theorem c9_self_set_evaluates :
    ((variableFn initialState "width" (some "test")).2).name = "--test-0"
    ∧ VariableH.set ((variableFn initialState "width" (some "test")).2)
        (.var ((variableFn initialState "width" (some "test")).2))
      = ("--test-0", some "var(--test-0, )") := by
  refine ⟨rfl, ?_⟩
  simp [VariableH.set, variableFn, initialState, createVariable, VariableH.name,
    VariableH.property, varToValue, varFbToValue, jsSetAt,
    cssPropertyValue, cssFunctions, fnParts, cssFunctionValue, paramParts,
    cssFunctionParameterValue, scalarParam, functionDefaults, cssFunctionParameterSeparators,
    propertyDefaults, defaultUnit, functionKebabCase, functionKebabCase.go,
    jsInterp, jsJoinElem, decStr, decChars, decCharsFuel, decDigit]
  rfl

/-- C10: the named animation constructor returns a definition whose
`animationName` is the suffixed registered name `<name>-0` (and not the given
name verbatim), marks the keyframe set as registered at construction — so
compiling any style that uses the definition hoists no inline keyframes
block — and the keyframe block appears exactly once in `getCss`, among the
registered keyframe blocks, under the suffixed name. -/
theorem c10_named_animation (name : String) (kf : KeyFrames)
    (a1 a2 a3 a4 a5 a6 a7 : Option Value) :
    animation initialState name kf a1 a2 a3 a4 a5 a6 a7
      = .ok ({ initialState with
                registeredKeyframes := [(name ++ "-0", { kf with rendered := some false })] },
          AnimationDefinition.mk (some (name ++ "-0")) (some { kf with rendered := some false })
            a1 a2 a3 a4 a5 a6 a7)
    ∧ (∀ (sel : String) (i : Nat),
        (singleAnimation (.defn (AnimationDefinition.mk (some (name ++ "-0"))
            (some { kf with rendered := some false }) a1 a2 a3 a4 a5 a6 a7)) sel i).keyframes
          = [])
    ∧ getCss { initialState with
          registeredKeyframes := [(name ++ "-0", { kf with rendered := some false })] }
        = keyframesCss (name ++ "-0") { kf with rendered := some false }
    ∧ name ++ "-0" ≠ name := by
  refine ⟨?_, ?_, ?_, ?_⟩
  · rw [show animation initialState name kf a1 a2 a3 a4 a5 a6 a7
        = (match registerKeyframes initialState name kf with
          | .error e => .error e
          | .ok (st', registeredName, marked) =>
            .ok (st', AnimationDefinition.mk (some registeredName) (some marked)
              a1 a2 a3 a4 a5 a6 a7)) from rfl]
    rw [registerKeyframes_eq]
    simp [initialState]
    rw [String.append_assoc]
    rfl
  · intro sel i
    simp [singleAnimation]
  · simp [getCss, initialState, intercalate_one]
  · intro h
    have := congrArg String.length h
    simp [String.length_append] at this
    exact absurd this (by decide)
